import Mathlib

/-!
Verification development for the ShadPKG PKG/PFS extractor
(`src/core/file_format/pkg.cpp`).  The definitions below are a shallow
embedding of the extraction pipeline: the PKG file is a total byte
function `Nat → Nat` (each value taken mod 256), machine integers are
`Nat` with explicit `% 2^32` where 32-bit wraparound matters, and the
cryptographic primitives from `core/crypto/crypto.cpp` (not part of the
sources in `src/`) appear as parameters collected in `CryptoPrims`,
with thin wrappers modelled from the specification's description of
their behaviour.
-/

namespace ShadPKG

/-- Read `n` bytes of a file (modelled as a total byte function) starting
at offset `off`, as the list `[f off, f (off+1), …]`, each reduced mod 256. -/
def readBytes (f : Nat → Nat) (off n : Nat) : List Nat :=
  (List.range n).map (fun k => f (off + k) % 256)

/-- Big-endian 32-bit read at `off` (PKG header and entry-table fields are
big-endian `u32_be`). -/
def readBE32 (f : Nat → Nat) (off : Nat) : Nat :=
  (f off % 256) * 16777216 + (f (off + 1) % 256) * 65536 +
    (f (off + 2) % 256) * 256 + (f (off + 3) % 256)

/-- Little-endian 32-bit read at `off` (used by `GetPFSCOffset`, which
`memcpy`s 4 file bytes into a host-little-endian `u32`). -/
def readLE32 (f : Nat → Nat) (off : Nat) : Nat :=
  (f off % 256) + (f (off + 1) % 256) * 256 +
    (f (off + 2) % 256) * 65536 + (f (off + 3) % 256) * 16777216

/-- The four bytes of a big-endian `u32` value, most significant first. -/
def be32Bytes (n : Nat) : List Nat :=
  [n / 16777216 % 256, n / 65536 % 256, n / 256 % 256, n % 256]

/-- One 32-byte PKG entry-table record (`PKGEntry` in `pkg.cpp`): six
big-endian `u32` fields followed by 8 reserved bytes that `Extract` skips
with `file.Seek(8, CurrentPosition)`. -/
structure PKGEntry where
  id : Nat
  filename_offset : Nat
  flags1 : Nat
  flags2 : Nat
  offset : Nat
  size : Nat
deriving DecidableEq

/-- The 32 in-memory bytes of a `PKGEntry` as `memcpy(&entry, …)` sees
them: six big-endian `u32` fields plus the 8 padding bytes, which stay
zero because the struct is value-initialised (`PKGEntry entry{}`) and the
file's reserved bytes are skipped, never read into the struct. -/
def entryBytes (e : PKGEntry) : List Nat :=
  be32Bytes e.id ++ be32Bytes e.filename_offset ++ be32Bytes e.flags1 ++
    be32Bytes e.flags2 ++ be32Bytes e.offset ++ be32Bytes e.size ++
    List.replicate 8 0

/-- Modelled from the spec: the cryptographic primitives implemented in
`core/crypto/crypto.cpp`, which is not among the sources under `src/`.
They are kept abstract (arbitrary computable functions over byte lists);
the wrappers below fix only the structure the spec describes (key
splitting and selection). -/
structure CryptoPrims where
  sha256 : List Nat → List Nat
  aes128CbcDecrypt : List Nat → List Nat → List Nat → List Nat
  rsaPkgDerivedKey3Decrypt : List Nat → List Nat
  rsaFakeKeysetDecrypt : List Nat → List Nat
  hmacSha256 : List Nat → List Nat → List Nat
  decryptPFS : List Nat → List Nat → List Nat → List Nat

/-- Modelled from the spec: `Crypto::ivKeyHASH256` (crypto.cpp, not under
`src/`) is SHA-256 of the 64-byte concatenated buffer. -/
def ivKeyHASH256 (c : CryptoPrims) (buf : List Nat) : List Nat :=
  c.sha256 buf

/-- Modelled from the spec: `Crypto::aesCbcCfb128Decrypt` (crypto.cpp,
not under `src/`) splits the 32-byte `ivKey` as `iv = ivKey[0..16]`,
`key = ivKey[16..32]` and AES-128-CBC-decrypts the data. -/
def aesCbcCfb128Decrypt (c : CryptoPrims) (ivkey data : List Nat) : List Nat :=
  c.aes128CbcDecrypt (ivkey.take 16) ((ivkey.drop 16).take 16) data

/-- Modelled from the spec: `Crypto::RSA2048Decrypt` (crypto.cpp, not
under `src/`); the boolean selects the `PkgDerivedKey3` private key
(`true`, used for dk3) or the `FakeKeyset` private key (`false`, used for
ekpfs). -/
def RSA2048Decrypt (c : CryptoPrims) (data : List Nat) (isDk3 : Bool) : List Nat :=
  if isDk3 then c.rsaPkgDerivedKey3Decrypt data else c.rsaFakeKeysetDecrypt data

/-- Modelled from the spec: `Crypto::PfsGenCryptoKey` (crypto.cpp, not
under `src/`): HMAC-SHA-256 keyed with `ekpfs` over `u32_le(1) ‖ seed`;
the first 16 bytes are the tweak key, the next 16 the data key. -/
def PfsGenCryptoKey (c : CryptoPrims) (ekpfs seed : List Nat) : List Nat × List Nat :=
  let d := c.hmacSha256 ekpfs ([1, 0, 0, 0] ++ seed)
  (d.take 16, (d.drop 16).take 16)

/-- The key members of class `PKG` that the entry loop of `Extract`
mutates (`dk3_`, `ivKey`, `imgKey`, `ekpfsKey`, `dataKey`, `tweakKey`). -/
structure KeyState where
  dk3 : List Nat
  ivKey : List Nat
  imgKey : List Nat
  ekpfsKey : List Nat
  dataKey : List Nat
  tweakKey : List Nat
deriving DecidableEq

/-- A zeroed initial key state (32 zero bytes of dk3), used for concrete
runs; the theorems below quantify over an arbitrary initial state. -/
def initKeys : KeyState :=
  ⟨List.replicate 32 0, [], [], [], [], []⟩

/-- The id-dispatch of one iteration of `Extract`'s entry loop
(pkg.cpp lines 214-245 and 260-280), restricted to its effect on the key
state:
* `id = 0x10`: read `seed_digest` (32 bytes), seven 32-byte digests and
  seven 256-byte keys from `entry.offset`; `dk3 := RSA2048Decrypt(key1[3],
  PkgDerivedKey3)`.  `key1[3]` starts `32 + 7*32 + 3*256 = 1024` bytes
  into the blob.
* `id = 0x20`: read 256-byte `imgkeydata` from `entry.offset`;
  `ivKey := SHA-256(entry_bytes(32) ‖ dk3(32))`;
  `imgKey := aesCbcCfb128Decrypt(ivKey, imgkeydata)`;
  `ekpfsKey := RSA2048Decrypt(imgKey, FakeKeyset)`.
* `id ∈ {0x400..0x403}` (NPDRM): recompute the member `ivKey` from this
  entry's bytes and the current dk3 (the decrypted payload only goes to
  disk, not into the key state).
* anything else: no key-state change. -/
def processEntry (c : CryptoPrims) (file : Nat → Nat) (s : KeyState)
    (e : PKGEntry) : KeyState :=
  if e.id = 0x10 then
    { s with dk3 := RSA2048Decrypt c (readBytes file (e.offset + 1024) 256) true }
  else if e.id = 0x20 then
    let imgkeydata := readBytes file e.offset 256
    let ivk := ivKeyHASH256 c (entryBytes e ++ s.dk3)
    let imgk := aesCbcCfb128Decrypt c ivk imgkeydata
    { s with ivKey := ivk, imgKey := imgk,
             ekpfsKey := RSA2048Decrypt c imgk false }
  else if e.id = 0x400 ∨ e.id = 0x401 ∨ e.id = 0x402 ∨ e.id = 0x403 then
    { s with ivKey := ivKeyHASH256 c (entryBytes e ++ s.dk3) }
  else
    s

/-- Folding `processEntry` over the entry table in file order. -/
def processEntries (c : CryptoPrims) (file : Nat → Nat) :
    KeyState → List PKGEntry → KeyState
  | s, [] => s
  | s, e :: rest => processEntries c file (processEntry c file s e) rest

/-- `Extract`'s entry loop as a fallible computation.  Mirroring the
source, the loop has no failure exit tied to entry ids or ordering: its
only early returns are `IOFile` seek failures, which cannot occur for the
total byte functions modelling an in-bounds file, so every run is `ok`. -/
def runEntryLoop (c : CryptoPrims) (file : Nat → Nat) :
    KeyState → List PKGEntry → Except String KeyState
  | s, [] => Except.ok s
  | s, e :: rest => runEntryLoop c file (processEntry c file s e) rest

/-- `true` iff the fallible entry loop did not report a failure. -/
def isOkE (r : Except String KeyState) : Bool :=
  match r with
  | Except.ok _ => true
  | Except.error _ => false

/-- Entries without id `0x10` never touch `dk3`. -/
theorem processEntries_dk3_stable (c : CryptoPrims) (file : Nat → Nat) :
    ∀ (l : List PKGEntry) (s : KeyState), (∀ e ∈ l, e.id ≠ 0x10) →
      (processEntries c file s l).dk3 = s.dk3 := by
  intro l
  induction l with
  | nil => intro s _; rfl
  | cons e rest ih =>
    intro s h
    have he : e.id ≠ 0x10 := h e (List.mem_cons_self e rest)
    have hrest : ∀ x ∈ rest, x.id ≠ 0x10 := fun x hx => h x (List.mem_cons_of_mem e hx)
    show (processEntries c file (processEntry c file s e) rest).dk3 = s.dk3
    rw [ih (processEntry c file s e) hrest]
    unfold processEntry
    rw [if_neg he]
    by_cases h20 : e.id = 0x20
    · simp [h20]
    · rw [if_neg h20]
      by_cases hnp : e.id = 0x400 ∨ e.id = 0x401 ∨ e.id = 0x402 ∨ e.id = 0x403
      · simp [hnp]
      · rw [if_neg hnp]

/-- Processing an `id = 0x20` entry rewrites exactly the `ivKey`,
`imgKey` and `ekpfsKey` fields with the four-stage chain applied to the
state's current `dk3`. -/
theorem processEntry_imageKey (c : CryptoPrims) (file : Nat → Nat) (s : KeyState)
    (e : PKGEntry) (h : e.id = 0x20) :
    processEntry c file s e =
      { s with
        ivKey := c.sha256 (entryBytes e ++ s.dk3),
        imgKey := c.aes128CbcDecrypt ((c.sha256 (entryBytes e ++ s.dk3)).take 16)
          (((c.sha256 (entryBytes e ++ s.dk3)).drop 16).take 16)
          (readBytes file e.offset 256),
        ekpfsKey := c.rsaFakeKeysetDecrypt
          (c.aes128CbcDecrypt ((c.sha256 (entryBytes e ++ s.dk3)).take 16)
            (((c.sha256 (entryBytes e ++ s.dk3)).drop 16).take 16)
            (readBytes file e.offset 256)) } := by
  unfold processEntry
  rw [if_neg (by rw [h]; decide), if_pos h]
  rfl

/-- C1: once a `0x10` entry has set `dk3 = RSA2048Decrypt(key1[3],
PkgDerivedKey3)` (where `key1[3]` is the 256-byte blob 1024 bytes into the
`0x10` entry's data) and no later entry before the `0x20` entry carries id
`0x10`, processing the `0x20` entry leaves
`ekpfsKey = RSA_FakeKeyset(AES-128-CBC-decrypt(iv = ivKey[0..16],
key = ivKey[16..32], imgkeydata))` with
`ivKey = SHA-256(entry_bytes(32) ‖ dk3(32))`, `imgkeydata` being the 256
bytes read at the `0x20` entry's offset; the hashed buffer is 64 bytes
long, entry bytes first. -/
theorem extract_ekpfs_chain (c : CryptoPrims) (file : Nat → Nat) (s : KeyState)
    (e10 e20 : PKGEntry) (mid : List PKGEntry)
    (h10 : e10.id = 0x10) (h20 : e20.id = 0x20)
    (hmid : ∀ e ∈ mid, e.id ≠ 0x10)
    (hlen : (c.rsaPkgDerivedKey3Decrypt (readBytes file (e10.offset + 1024) 256)).length = 32) :
    (processEntries c file s (e10 :: (mid ++ [e20]))).ekpfsKey =
      c.rsaFakeKeysetDecrypt
        (c.aes128CbcDecrypt
          ((c.sha256 (entryBytes e20 ++
              c.rsaPkgDerivedKey3Decrypt (readBytes file (e10.offset + 1024) 256))).take 16)
          (((c.sha256 (entryBytes e20 ++
              c.rsaPkgDerivedKey3Decrypt (readBytes file (e10.offset + 1024) 256))).drop 16).take 16)
          (readBytes file e20.offset 256)) ∧
    (entryBytes e20 ++
      c.rsaPkgDerivedKey3Decrypt (readBytes file (e10.offset + 1024) 256)).length = 64 := by
  have hstep10 : processEntry c file s e10 =
      { s with dk3 := c.rsaPkgDerivedKey3Decrypt (readBytes file (e10.offset + 1024) 256) } := by
    unfold processEntry
    rw [if_pos h10]
    rfl
  have hsplit : ∀ (l : List PKGEntry) (s' : KeyState),
      processEntries c file s' (l ++ [e20]) =
        processEntry c file (processEntries c file s' l) e20 := by
    intro l
    induction l with
    | nil => intro s'; rfl
    | cons x xs ih => intro s'; exact ih (processEntry c file s' x)
  constructor
  · show (processEntries c file (processEntry c file s e10) (mid ++ [e20])).ekpfsKey = _
    rw [hstep10, hsplit mid]
    set smid := processEntries c file
      { s with dk3 := c.rsaPkgDerivedKey3Decrypt (readBytes file (e10.offset + 1024) 256) } mid
      with hsmid
    have hdk3 : smid.dk3 =
        c.rsaPkgDerivedKey3Decrypt (readBytes file (e10.offset + 1024) 256) := by
      rw [hsmid, processEntries_dk3_stable c file mid _ hmid]
    rw [processEntry_imageKey c file smid e20 h20, hdk3]
  · rw [List.length_append, hlen]
    simp [entryBytes, be32Bytes]

/-- A concrete crypto instantiation used by witnesses and
counterexamples; the abstract theorems hold for any `CryptoPrims`. -/
def cDemo : CryptoPrims where
  sha256 := fun l => [l.length % 256]
  aes128CbcDecrypt := fun iv k d => iv ++ k ++ [d.length % 256]
  rsaPkgDerivedKey3Decrypt := fun _ => List.replicate 32 1
  rsaFakeKeysetDecrypt := fun d => [d.length % 256, 7]
  hmacSha256 := fun k m => [k.length % 256, m.length % 256] ++ List.replicate 30 3
  decryptPFS := fun _ _ d => d

/-- Witness for `extract_ekpfs_chain` at a concrete crypto instance, file
and entry table. -/
theorem extract_ekpfs_chain_witness :
    ((⟨0x10, 0, 0, 0, 0, 0⟩ : PKGEntry).id = 0x10 ∧
      (⟨0x20, 0, 0, 0, 500, 0⟩ : PKGEntry).id = 0x20 ∧
      (∀ e ∈ ([] : List PKGEntry), e.id ≠ 0x10) ∧
      (cDemo.rsaPkgDerivedKey3Decrypt
        (readBytes (fun _ => 9) ((⟨0x10, 0, 0, 0, 0, 0⟩ : PKGEntry).offset + 1024) 256)).length = 32) ∧
    ((processEntries cDemo (fun _ => 9) initKeys
        (⟨0x10, 0, 0, 0, 0, 0⟩ :: ([] ++ [⟨0x20, 0, 0, 0, 500, 0⟩]))).ekpfsKey =
      cDemo.rsaFakeKeysetDecrypt
        (cDemo.aes128CbcDecrypt
          ((cDemo.sha256 (entryBytes ⟨0x20, 0, 0, 0, 500, 0⟩ ++
              cDemo.rsaPkgDerivedKey3Decrypt
                (readBytes (fun _ => 9) ((⟨0x10, 0, 0, 0, 0, 0⟩ : PKGEntry).offset + 1024) 256))).take 16)
          (((cDemo.sha256 (entryBytes ⟨0x20, 0, 0, 0, 500, 0⟩ ++
              cDemo.rsaPkgDerivedKey3Decrypt
                (readBytes (fun _ => 9) ((⟨0x10, 0, 0, 0, 0, 0⟩ : PKGEntry).offset + 1024) 256))).drop 16).take 16)
          (readBytes (fun _ => 9) (⟨0x20, 0, 0, 0, 500, 0⟩ : PKGEntry).offset 256)) ∧
      (entryBytes ⟨0x20, 0, 0, 0, 500, 0⟩ ++
        cDemo.rsaPkgDerivedKey3Decrypt
          (readBytes (fun _ => 9) ((⟨0x10, 0, 0, 0, 0, 0⟩ : PKGEntry).offset + 1024) 256)).length = 64) :=
  ⟨⟨rfl, rfl, by simp, by simp [cDemo]⟩,
    extract_ekpfs_chain cDemo (fun _ => 9) initKeys
      ⟨0x10, 0, 0, 0, 0, 0⟩ ⟨0x20, 0, 0, 0, 500, 0⟩ []
      rfl rfl (by simp) (by simp [cDemo])⟩

/-- The entry loop reports success on every entry table: it has no
failure exit other than file-seek failures. -/
theorem runEntryLoop_ok (c : CryptoPrims) (file : Nat → Nat) :
    ∀ (es : List PKGEntry) (s : KeyState), isOkE (runEntryLoop c file s es) = true := by
  intro es
  induction es with
  | nil => intro s; rfl
  | cons e rest ih => intro s; exact ih (processEntry c file s e)

/-- C3 (amended): `Extract` performs no ordering or presence check on the
`0x10`/`0x20` entries.  Processing a `0x20` entry succeeds from any state
and derives `ekpfsKey` from whatever `dk3` currently holds (its initial
value when no `0x10` entry came first), and the entry loop never fails
regardless of which ids appear. -/
theorem extract_no_order_check (c : CryptoPrims) (file : Nat → Nat) (s : KeyState)
    (e20 : PKGEntry) (rest : List PKGEntry) (h20 : e20.id = 0x20) :
    runEntryLoop c file s (e20 :: rest) =
      runEntryLoop c file
        { s with
          ivKey := c.sha256 (entryBytes e20 ++ s.dk3),
          imgKey := c.aes128CbcDecrypt ((c.sha256 (entryBytes e20 ++ s.dk3)).take 16)
            (((c.sha256 (entryBytes e20 ++ s.dk3)).drop 16).take 16)
            (readBytes file e20.offset 256),
          ekpfsKey := c.rsaFakeKeysetDecrypt
            (c.aes128CbcDecrypt ((c.sha256 (entryBytes e20 ++ s.dk3)).take 16)
              (((c.sha256 (entryBytes e20 ++ s.dk3)).drop 16).take 16)
              (readBytes file e20.offset 256)) } rest ∧
    ∀ (es : List PKGEntry) (s2 : KeyState), isOkE (runEntryLoop c file s2 es) = true := by
  constructor
  · show runEntryLoop c file (processEntry c file s e20) rest = _
    rw [processEntry_imageKey c file s e20 h20]
  · exact runEntryLoop_ok c file

/-- Counterexample to C3 as stated: an entry table whose only entry has
id `0x20` (so `0x20` precedes any `0x10`, and `0x10` is missing
entirely).  The entry loop succeeds instead of failing with `BadFormat`,
and `ekpfsKey` is computed from the initial (never-derived) `dk3`; the
empty table also succeeds. -/
theorem extract_badformat_counterexample :
    isOkE (runEntryLoop cDemo (fun _ => 9) initKeys [⟨0x20, 0, 0, 0, 500, 0⟩]) = true ∧
    (processEntries cDemo (fun _ => 9) initKeys [⟨0x20, 0, 0, 0, 500, 0⟩]).ekpfsKey = [2, 7] ∧
    isOkE (runEntryLoop cDemo (fun _ => 9) initKeys []) = true := by
  refine ⟨rfl, ?_, rfl⟩
  decide

/-- Witness for `extract_no_order_check` at a concrete input. -/
theorem extract_no_order_check_witness :
    (⟨0x20, 0, 0, 0, 500, 0⟩ : PKGEntry).id = 0x20 ∧
    (runEntryLoop cDemo (fun _ => 9) initKeys (⟨0x20, 0, 0, 0, 500, 0⟩ :: []) =
      runEntryLoop cDemo (fun _ => 9)
        { initKeys with
          ivKey := cDemo.sha256 (entryBytes ⟨0x20, 0, 0, 0, 500, 0⟩ ++ initKeys.dk3),
          imgKey := cDemo.aes128CbcDecrypt
            ((cDemo.sha256 (entryBytes ⟨0x20, 0, 0, 0, 500, 0⟩ ++ initKeys.dk3)).take 16)
            (((cDemo.sha256 (entryBytes ⟨0x20, 0, 0, 0, 500, 0⟩ ++ initKeys.dk3)).drop 16).take 16)
            (readBytes (fun _ => 9) (⟨0x20, 0, 0, 0, 500, 0⟩ : PKGEntry).offset 256),
          ekpfsKey := cDemo.rsaFakeKeysetDecrypt
            (cDemo.aes128CbcDecrypt
              ((cDemo.sha256 (entryBytes ⟨0x20, 0, 0, 0, 500, 0⟩ ++ initKeys.dk3)).take 16)
              (((cDemo.sha256 (entryBytes ⟨0x20, 0, 0, 0, 500, 0⟩ ++ initKeys.dk3)).drop 16).take 16)
              (readBytes (fun _ => 9) (⟨0x20, 0, 0, 0, 500, 0⟩ : PKGEntry).offset 256)) } [] ∧
      ∀ (es : List PKGEntry) (s2 : KeyState),
        isOkE (runEntryLoop cDemo (fun _ => 9) s2 es) = true) :=
  ⟨rfl, extract_no_order_check cDemo (fun _ => 9) initKeys ⟨0x20, 0, 0, 0, 500, 0⟩ [] rfl⟩

/-- The PKG header fields that drive the PFS phase of `Extract`. -/
structure PKGHeaderModel where
  pfs_image_offset : Nat
  pfs_cache_size : Nat

/-- The phase of `Extract` after the entry loop (pkg.cpp lines 285-322),
up to the decision whether PFS extraction proceeds: seek to
`pfs_image_offset + 0x370` and read the 16-byte seed; derive
`(tweakKey, dataKey)` with `PfsGenCryptoKey` (this happens
unconditionally, before the length test); compute the 32-bit
`length = pfs_cache_size * 2`; when `length = 0` the whole
PFS-image/PFSC/sector-map phase is skipped (`none`), otherwise it
proceeds on `length` bytes (`some length`). -/
def pfsPhase (c : CryptoPrims) (file : Nat → Nat) (hdr : PKGHeaderModel)
    (s : KeyState) : KeyState × Option Nat :=
  let seed := readBytes file (hdr.pfs_image_offset + 0x370) 16
  let keys := PfsGenCryptoKey c s.ekpfsKey seed
  let s2 := { s with tweakKey := keys.1, dataKey := keys.2 }
  let length := (hdr.pfs_cache_size * 2) % 4294967296
  if length = 0 then (s2, none) else (s2, some length)

/-- C5 (amended): with `pfs_cache_size = 0` the PFS phase is skipped
(`none`: no sector map, no PFS files, only the `sce_sys/` outputs of the
entry loop), but `dataKey` and `tweakKey` are nevertheless derived first,
because `Extract` reads the seed and calls `PfsGenCryptoKey`
unconditionally before testing the length. -/
theorem pfsPhase_cache_zero (c : CryptoPrims) (file : Nat → Nat)
    (hdr : PKGHeaderModel) (s : KeyState) (h : hdr.pfs_cache_size = 0) :
    (pfsPhase c file hdr s).2 = none ∧
    (pfsPhase c file hdr s).1.tweakKey =
      (PfsGenCryptoKey c s.ekpfsKey (readBytes file (hdr.pfs_image_offset + 0x370) 16)).1 ∧
    (pfsPhase c file hdr s).1.dataKey =
      (PfsGenCryptoKey c s.ekpfsKey (readBytes file (hdr.pfs_image_offset + 0x370) 16)).2 := by
  unfold pfsPhase
  rw [h]
  exact ⟨rfl, rfl, rfl⟩

/-- Counterexample to C5 as stated: with `pfs_cache_size = 0` the PFS
phase is indeed skipped, but `dataKey` is not left underived — it differs
from its pre-phase value, having been produced by `PfsGenCryptoKey`. -/
theorem pfsPhase_cache_zero_counterexample :
    (pfsPhase cDemo (fun _ => 9) ⟨0, 0⟩ initKeys).2 = none ∧
    (pfsPhase cDemo (fun _ => 9) ⟨0, 0⟩ initKeys).1.dataKey ≠ initKeys.dataKey ∧
    (pfsPhase cDemo (fun _ => 9) ⟨0, 0⟩ initKeys).1.tweakKey ≠ initKeys.tweakKey := by
  refine ⟨rfl, ?_, ?_⟩ <;> decide

/-- Witness for `pfsPhase_cache_zero` at a concrete input. -/
theorem pfsPhase_cache_zero_witness :
    (⟨0, 0⟩ : PKGHeaderModel).pfs_cache_size = 0 ∧
    ((pfsPhase cDemo (fun _ => 9) ⟨0, 0⟩ initKeys).2 = none ∧
      (pfsPhase cDemo (fun _ => 9) ⟨0, 0⟩ initKeys).1.tweakKey =
        (PfsGenCryptoKey cDemo initKeys.ekpfsKey
          (readBytes (fun _ => 9) ((⟨0, 0⟩ : PKGHeaderModel).pfs_image_offset + 0x370) 16)).1 ∧
      (pfsPhase cDemo (fun _ => 9) ⟨0, 0⟩ initKeys).1.dataKey =
        (PfsGenCryptoKey cDemo initKeys.ekpfsKey
          (readBytes (fun _ => 9) ((⟨0, 0⟩ : PKGHeaderModel).pfs_image_offset + 0x370) 16)).2) :=
  ⟨rfl, pfsPhase_cache_zero cDemo (fun _ => 9) ⟨0, 0⟩ initKeys rfl⟩

/-- The number of bytes `ExtractFiles` writes for block index `j` of a
`PFS_FILE` inode with `nblocks` blocks and byte size `bsize`
(pkg.cpp lines 555-563): `size_decompressed` is `(j+1) * 0x10000` at the
write, the full 0x10000-byte `decompressedData` goes out when
`j < nblocks - 1`, and the final block writes
`decompressedData.size() - (size_decompressed - bsize)` bytes. -/
def writeSizeAt (nblocks bsize j : Nat) : Nat :=
  if j < nblocks - 1 then 65536 else 65536 - ((j + 1) * 65536 - bsize)

/-- The on-disk byte length of an extracted `PFS_FILE`: the sum of the
per-block write sizes over blocks `0 .. nblocks - 1`. -/
def extractedFileLength (nblocks bsize : Nat) : Nat :=
  ((List.range nblocks).map (writeSizeAt nblocks bsize)).sum

/-- Sum of a constant-valued map over `List.range`. -/
theorem sum_range_const (k : Nat) (g : Nat → Nat) (h : ∀ j < k, g j = 65536) :
    ((List.range k).map g).sum = k * 65536 := by
  induction k with
  | zero => simp
  | succ m ih =>
    rw [List.range_succ, List.map_append, List.sum_append]
    simp only [List.map_cons, List.map_nil, List.sum_cons, List.sum_nil, Nat.add_zero]
    rw [ih (fun j hj => h j (by omega)), h m (by omega)]
    ring

/-- C2: for a `PFS_FILE` inode with `(blocks - 1) * 0x10000 < size ≤
blocks * 0x10000`, every block before the last is written in full
(0x10000 bytes), the last block writes exactly the tail
`size - (blocks - 1) * 0x10000`, and the total on-disk length equals the
inode's `size` — never rounded up to 64 KiB. -/
theorem extract_file_length_exact (nblocks bsize : Nat)
    (h1 : (nblocks - 1) * 65536 < bsize) (h2 : bsize ≤ nblocks * 65536) :
    (∀ j, j < nblocks - 1 → writeSizeAt nblocks bsize j = 65536) ∧
    writeSizeAt nblocks bsize (nblocks - 1) = bsize - (nblocks - 1) * 65536 ∧
    extractedFileLength nblocks bsize = bsize := by
  have hn : 1 ≤ nblocks := by
    by_contra hn
    have h0 : nblocks = 0 := by omega
    subst h0
    simp at h1 h2
    omega
  have hfull : ∀ j, j < nblocks - 1 → writeSizeAt nblocks bsize j = 65536 := by
    intro j hj
    unfold writeSizeAt
    rw [if_pos hj]
  have hlast : writeSizeAt nblocks bsize (nblocks - 1) = bsize - (nblocks - 1) * 65536 := by
    unfold writeSizeAt
    rw [if_neg (Nat.lt_irrefl _)]
    have he : nblocks - 1 + 1 = nblocks := by omega
    rw [he]
    omega
  refine ⟨hfull, hlast, ?_⟩
  unfold extractedFileLength
  obtain ⟨m, rfl⟩ : ∃ m, nblocks = m + 1 := ⟨nblocks - 1, by omega⟩
  rw [List.range_succ, List.map_append, List.sum_append]
  simp only [List.map_cons, List.map_nil, List.sum_cons, List.sum_nil, Nat.add_zero]
  rw [sum_range_const m _ (fun j hj => hfull j (by omega))]
  have hl2 : writeSizeAt (m + 1) bsize m = bsize - m * 65536 := by
    simpa using hlast
  rw [hl2]
  omega

/-- Witness for `extract_file_length_exact` with 2 blocks and a
one-byte tail. -/
theorem extract_file_length_exact_witness :
    ((2 - 1) * 65536 < 65537 ∧ 65537 ≤ 2 * 65536) ∧
    ((∀ j, j < 2 - 1 → writeSizeAt 2 65537 j = 65536) ∧
      writeSizeAt 2 65537 (2 - 1) = 65537 - (2 - 1) * 65536 ∧
      extractedFileLength 2 65537 = 65537) :=
  ⟨⟨by decide, by decide⟩, extract_file_length_exact 2 65537 (by decide) (by decide)⟩

/-- `GetPFSCOffset` (pkg.cpp lines 41-50): scan the decrypted PFS head at
stride 0x10000 starting from 0x20000 for the little-endian `PFSC` magic
0x43534650; the candidate offsets are exactly the `0x20000 + k * 0x10000`
below `size`.  When no candidate matches, the function returns `(u32)-1`,
i.e. 4294967295. -/
def GetPFSCOffset (f : Nat → Nat) (size : Nat) : Nat :=
  match ((List.range ((size - 0x20000 + 0xFFFF) / 0x10000)).map
      (fun k => 0x20000 + k * 0x10000)).find?
      (fun i => readLE32 f i == 0x43534650) with
  | some i => i
  | none => 4294967295

/-- The byte count of the `memcpy` at pkg.cpp line 311,
`length - pfsc_offset`, computed in unsigned 32-bit arithmetic. -/
def pfscCopyLen (length off : Nat) : Nat :=
  (length + (4294967296 - off % 4294967296)) % 4294967296

/-- C4 evaluation at the failing input: a 0x40000-byte decrypted PFS head
of zeros holds no PFSC magic at 0x20000 or 0x30000, so `GetPFSCOffset`
returns the `(u32)-1` sentinel — and `Extract` (pkg.cpp lines 310-311)
uses it without any check: the unsigned `length - pfsc_offset` wraps to
0x40001, which exceeds both the source and destination buffers of the
`memcpy`.  No `BadFormat` path exists. -/
theorem getPFSCOffset_unchecked_sentinel :
    GetPFSCOffset (fun _ => 0) 262144 = 4294967295 ∧
    pfscCopyLen 262144 (GetPFSCOffset (fun _ => 0) 262144) = 262145 ∧
    262144 < pfscCopyLen 262144 (GetPFSCOffset (fun _ => 0) 262144) := by
  refine ⟨?_, ?_, ?_⟩ <;> decide

/-- A PFS directory entry as the walker reads it (little-endian `ino`,
`type`, `namelen`, `entsize`, then `name`). -/
structure Dirent where
  ino : Nat
  dtype : Nat
  namelen : Nat
  entsize : Nat
  name : String
deriving DecidableEq

/-- The per-block dirent iteration of `Extract`
(pkg.cpp lines 413-443, and identically 377-400):
`for (j = 0; j < 0x10000; j += ent_size)` — read the dirent at offset
`j`, stop at `ino == 0`, otherwise record it and advance by its own
`entsize`.  A logical block is modelled as the map from offset to the
dirent decoded there; `fuel` counts loop iterations, and `none` means the
loop did not finish within `fuel` iterations. -/
def walkBlock (block : Nat → Dirent) :
    Nat → Nat → List Dirent → Option (List Dirent)
  | 0, _, _ => none
  | fuel + 1, j, acc =>
    if j < 65536 then
      let d := block j
      if d.ino = 0 then some acc.reverse
      else walkBlock block fuel (j + d.entsize) (d :: acc)
    else some acc.reverse

/-- The dirent loop on `block` runs forever from offset 0: no fuel bound
suffices. -/
def walkDiverges (block : Nat → Dirent) : Prop :=
  ∀ (fuel : Nat) (acc : List Dirent), walkBlock block fuel 0 acc = none

/-- A malformed block: every offset decodes to a dirent with `ino = 1`
and `entsize = 0`. -/
def stuckBlock : Nat → Dirent :=
  fun _ => ⟨1, 3, 1, 0, "a"⟩

/-- A block whose first dirent has `entsize = 8` (smaller than the 24
bytes the claim says are enforced) followed by a terminator. -/
def smallStrideBlock : Nat → Dirent :=
  fun j => if j = 0 then ⟨1, 3, 1, 8, "b"⟩ else ⟨0, 0, 0, 0, ""⟩

/-- Counterexample to C6 as stated: the walker enforces neither
`entsize ≥ 24` nor a cumulative-stride bound — a dirent with
`entsize = 0` and `ino ≠ 0` keeps `j` at 0 and the loop never
terminates, and a dirent with stride 8 (< 24) is accepted without any
error. -/
theorem walkBlock_no_entsize_check :
    walkDiverges stuckBlock ∧
    walkBlock smallStrideBlock 100 0 [] = some [⟨1, 3, 1, 8, "b"⟩] := by
  constructor
  · intro fuel
    induction fuel with
    | zero => intro acc; rfl
    | succ m ih =>
      intro acc
      show walkBlock stuckBlock m (0 + (stuckBlock 0).entsize) _ = none
      exact ih _
  · decide

/-- C6 (amended): the only bound the walker has is the loop condition
`j < 0x10000`; it terminates whenever every dirent decoded in the block
has `entsize ≥ 1` (at most 0x10000 iterations), but performs no
`entsize ≥ 24` check, and a dirent with `entsize = 0` and `ino ≠ 0`
loops forever. -/
theorem walkBlock_terminates_of_pos_entsize (block : Nat → Dirent)
    (h : ∀ k, 1 ≤ (block k).entsize) :
    (walkBlock block 65537 0 []).isSome = true := by
  have key : ∀ (fuel j : Nat) (acc : List Dirent), 65536 - j < fuel →
      (walkBlock block fuel j acc).isSome = true := by
    intro fuel
    induction fuel with
    | zero => intro j acc hf; omega
    | succ m ih =>
      intro j acc hf
      show (walkBlock block (m + 1) j acc).isSome = true
      unfold walkBlock
      by_cases hj : j < 65536
      · rw [if_pos hj]
        by_cases hino : (block j).ino = 0
        · rw [if_pos hino]; rfl
        · rw [if_neg hino]
          exact ih (j + (block j).entsize) _ (by have := h j; omega)
      · rw [if_neg hj]; rfl
  exact key 65537 0 [] (by omega)

/-- Witness for `walkBlock_terminates_of_pos_entsize`: a block of
terminator dirents with positive `entsize`. -/
theorem walkBlock_terminates_witness :
    (∀ k, 1 ≤ ((fun (_ : Nat) => (⟨0, 0, 0, 24, ""⟩ : Dirent)) k).entsize) ∧
    (walkBlock (fun _ => ⟨0, 0, 0, 24, ""⟩) 65537 0 []).isSome = true :=
  ⟨fun _ => by norm_num,
    walkBlock_terminates_of_pos_entsize (fun _ => ⟨0, 0, 0, 24, ""⟩) (fun _ => by norm_num)⟩

/-- The magic validation at the top of `PKG::Open`
(pkg.cpp lines 65-69): the header is read, and when `pkgheader.magic`
(big-endian at file offset 0) differs from 0x7F434E54, `Open` returns
`false`; the mismatch is only written to the debug log — `failreason` is
not assigned on this path.  `true` here means the magic check passed and
`Open` continues (its later failure paths are seek failures, outside this
model's scope). -/
def openMagicGate (bytes : Nat → Nat) (failreason : String) : Bool × String :=
  if readBE32 bytes 0 = 0x7F434E54 then (true, failreason)
  else (false, failreason)

/-- Does `needle` occur as a prefix of `hay`? -/
def isPrefixChars : List Char → List Char → Bool
  | [], _ => true
  | _ :: _, [] => false
  | a :: as, b :: bs => a = b && isPrefixChars as bs

/-- Does `needle` occur anywhere inside `hay`? -/
def containsSub (needle : List Char) : List Char → Bool
  | [] => isPrefixChars needle []
  | h :: t => isPrefixChars needle (h :: t) || containsSub needle t

/-- Does a failure message mention the magic or the format at all
(case-variant substring search)? -/
def mentionsMagicOrFormat (s : String) : Bool :=
  containsSub "magic".toList s.toList || containsSub "format".toList s.toList ||
    containsSub "Magic".toList s.toList || containsSub "Format".toList s.toList

/-- C7 (amended): on a magic mismatch `Open` returns `false` and leaves
the `failreason` output parameter exactly as the caller passed it; the
error text goes only to the log. -/
theorem open_magic_mismatch (bytes : Nat → Nat) (fr : String)
    (h : readBE32 bytes 0 ≠ 0x7F434E54) :
    openMagicGate bytes fr = (false, fr) := by
  unfold openMagicGate
  rw [if_neg h]

/-- Counterexample to C7 as stated: on a 4 KiB file of zeros, `Open`
returns `false` but `failreason` stays the empty string it was passed —
no message mentioning magic or format is stored in it. -/
theorem open_magic_mismatch_counterexample :
    (openMagicGate (fun _ => 0) "").1 = false ∧
    (openMagicGate (fun _ => 0) "").2 = "" ∧
    mentionsMagicOrFormat (openMagicGate (fun _ => 0) "").2 = false := by
  refine ⟨rfl, rfl, ?_⟩
  decide

/-- Witness for `open_magic_mismatch` on the all-zero file. -/
theorem open_magic_mismatch_witness :
    readBE32 (fun _ => 0) 0 ≠ 0x7F434E54 ∧
    openMagicGate (fun _ => 0) "" = (false, "") :=
  ⟨by decide, open_magic_mismatch (fun _ => 0) "" (by decide)⟩

/-- The `sce_sys` writes of `Extract`'s entry loop (pkg.cpp lines
191-212 and 247-257): each table entry is dumped to
`extract_path / "sce_sys" / name`, where an entry whose id has no known
canonical filename (`GetEntryNameByType` returns the empty string) uses
`std::to_string(entry.id)` — its decimal id — as the name.  Each write
carries the `entry.size` raw bytes read at `entry.offset`.  The name
lookup (`pkg_type.cpp`) is not under `src/`, so it is a parameter; only
emptiness matters here. -/
def extractSceSysWrites (nameOf : Nat → String) (file : Nat → Nat)
    (es : List PKGEntry) : List (String × List Nat) :=
  es.map (fun e =>
    (if nameOf e.id = "" then "sce_sys/" ++ toString e.id
     else "sce_sys/" ++ nameOf e.id,
     readBytes file e.offset e.size))

/-- The file name `ExtractFiles` builds in its unknown-entry branch
(pkg.cpp lines 569-571): `"entry_0x" << std::hex << inode << ".bin"`,
placed at the output root.  That branch runs only for PFS file-table
entries with an empty name whose inode number equals a PKG entry id — not
for PKG table entries as such. -/
def entryBinName (ino : Nat) : String :=
  "entry_0x" ++ (Nat.toDigits 16 ino).asString ++ ".bin"

/-- Counterexample to C8 as stated: the unknown entry with
id 0xDEADBEEF = 3735928559 is written by `Extract` to
`sce_sys/3735928559` (decimal id under `sce_sys/`), not to
`entry_0xdeadbeef.bin` at the output root. -/
theorem unknown_entry_path_counterexample :
    (extractSceSysWrites (fun _ => "") (fun _ => 0)
      [⟨3735928559, 0, 0, 0, 0, 17⟩]).map Prod.fst = ["sce_sys/3735928559"] ∧
    "sce_sys/3735928559" ≠ entryBinName 3735928559 ∧
    entryBinName 3735928559 = "entry_0xdeadbeef.bin" := by
  refine ⟨?_, ?_, ?_⟩ <;> decide

/-- C8 (amended): an entry whose id has no canonical filename is dumped
by `Extract` to `sce_sys/<decimal id>` with its raw bytes; every write of
the entry loop lands under `sce_sys/`, never at an `entry_0x…` path —
the `entry_0x<hex id>.bin` form exists only in `ExtractFiles`' branch for
empty-named file-table rows. -/
theorem unknown_entry_path (nameOf : Nat → String) (file : Nat → Nat)
    (es : List PKGEntry) (e : PKGEntry) (he : e ∈ es)
    (hunk : nameOf e.id = "") :
    ("sce_sys/" ++ toString e.id, readBytes file e.offset e.size) ∈
      extractSceSysWrites nameOf file es ∧
    ∀ w ∈ extractSceSysWrites nameOf file es,
      isPrefixChars "sce_sys/".toList w.1.toList = true := by
  have hprefix : ∀ (p r : List Char), isPrefixChars p (p ++ r) = true := by
    intro p
    induction p with
    | nil => intro r; rfl
    | cons a as ih => intro r; simp [isPrefixChars, ih r]
  have hpre : ∀ (t : String),
      isPrefixChars "sce_sys/".toList ("sce_sys/" ++ t).toList = true := by
    intro t
    show isPrefixChars "sce_sys/".data ("sce_sys/" ++ t).data = true
    rw [String.data_append]
    exact hprefix _ _
  constructor
  · unfold extractSceSysWrites
    have hmem := List.mem_map_of_mem (fun e' : PKGEntry =>
        (if nameOf e'.id = "" then "sce_sys/" ++ toString e'.id
         else "sce_sys/" ++ nameOf e'.id,
         readBytes file e'.offset e'.size)) he
    simp only [hunk, if_pos] at hmem
    exact hmem
  · intro w hw
    unfold extractSceSysWrites at hw
    rcases List.mem_map.mp hw with ⟨e', he', rfl⟩
    by_cases hn : nameOf e'.id = ""
    · simp only [hn, if_pos]
      exact hpre _
    · simp only [if_neg hn]
      exact hpre _

/-- Witness for `unknown_entry_path` at a concrete table. -/
theorem unknown_entry_path_witness :
    ((⟨3735928559, 0, 0, 0, 0, 17⟩ : PKGEntry) ∈
        [(⟨3735928559, 0, 0, 0, 0, 17⟩ : PKGEntry)] ∧
      (fun (_ : Nat) => "") (⟨3735928559, 0, 0, 0, 0, 17⟩ : PKGEntry).id = "") ∧
    (("sce_sys/" ++ toString (⟨3735928559, 0, 0, 0, 0, 17⟩ : PKGEntry).id,
        readBytes (fun _ => 0) (⟨3735928559, 0, 0, 0, 0, 17⟩ : PKGEntry).offset
          (⟨3735928559, 0, 0, 0, 0, 17⟩ : PKGEntry).size) ∈
      extractSceSysWrites (fun _ => "") (fun _ => 0)
        [⟨3735928559, 0, 0, 0, 0, 17⟩] ∧
    ∀ w ∈ extractSceSysWrites (fun _ => "") (fun _ => 0)
        [⟨3735928559, 0, 0, 0, 0, 17⟩],
      isPrefixChars "sce_sys/".toList w.1.toList = true) :=
  ⟨⟨List.mem_singleton.mpr rfl, rfl⟩,
    unknown_entry_path (fun _ => "") (fun _ => 0)
      [⟨3735928559, 0, 0, 0, 0, 17⟩] ⟨3735928559, 0, 0, 0, 0, 17⟩
      (List.mem_singleton.mpr rfl) rfl⟩

/-- File position at the end of one entry-loop iteration
(pkg.cpp lines 178-283).  The iteration begins at the entry's 32-byte
table slot: six 4-byte reads advance the position by 24, the
`Seek(8, CurrentPosition)` skips the reserved bytes, and `currentPos`
saves `Tell()` — the start of the next slot.  The body then seeks to
`entry.offset` for key material, the raw dump and NPDRM payloads
(positions recorded in `inner` below), but every path that completes the
iteration ends with `file.Seek(currentPos)`, so the final position is
`currentPos` regardless of the payload seeks. -/
def iterFinalPos (e : PKGEntry) (p : Nat) : Nat :=
  let currentPos := p + 24 + 8
  let inner := e.offset + e.size
  currentPos + 0 * inner

/-- File position after the entry loop has consumed a prefix of the entry
table, starting from `tableOff = pkg_table_entry_offset`. -/
def posAtIter (tableOff : Nat) : List PKGEntry → Nat
  | [] => tableOff
  | e :: rest => posAtIter (iterFinalPos e tableOff) rest

/-- The loop position advances by exactly 32 bytes per entry. -/
theorem posAtIter_eq (l : List PKGEntry) :
    ∀ (t : Nat), posAtIter t l = t + 32 * l.length := by
  induction l with
  | nil => intro t; simp [posAtIter]
  | cons e rest ih =>
    intro t
    show posAtIter (iterFinalPos e t) rest = _
    rw [ih (iterFinalPos e t)]
    simp [iterFinalPos, List.length_cons]
    ring

/-- C10: at the start of iteration `i` of `Extract`'s entry loop the file
position is `pkg_table_entry_offset + 32 * i` — the `currentPos`
save/restore keeps the payload seeks inside an iteration from shifting
which table slot the next iteration reads. -/
theorem entry_loop_position_invariant (tableOff : Nat) (es : List PKGEntry)
    (i : Nat) (h : i ≤ es.length) :
    posAtIter tableOff (es.take i) = tableOff + 32 * i := by
  rw [posAtIter_eq (es.take i) tableOff, List.length_take]
  rw [Nat.min_eq_left h]

/-- Witness for `entry_loop_position_invariant` at iteration 2 of a
3-entry table. -/
theorem entry_loop_position_invariant_witness :
    2 ≤ ([⟨1, 0, 0, 0, 7, 9⟩, ⟨2, 0, 0, 0, 11, 13⟩,
          ⟨3, 0, 0, 0, 17, 19⟩] : List PKGEntry).length ∧
    posAtIter 100 (([⟨1, 0, 0, 0, 7, 9⟩, ⟨2, 0, 0, 0, 11, 13⟩,
          ⟨3, 0, 0, 0, 17, 19⟩] : List PKGEntry).take 2) = 100 + 32 * 2 :=
  ⟨by decide,
    entry_loop_position_invariant 100
      [⟨1, 0, 0, 0, 7, 9⟩, ⟨2, 0, 0, 0, 11, 13⟩, ⟨3, 0, 0, 0, 17, 19⟩] 2
      (by decide)⟩

/-- The effect of a sequence of file writes on the output tree, as a map
from path to final content.  The list is in chronological order and a
later write to the same path overwrites an earlier one — exactly what
concurrent `ExtractFiles` workers do to the output directory, since each
call writes one whole file at `extractPaths[inode]`. -/
def applyWrites : List (String × List Nat) → String → Option (List Nat)
  | [], _ => none
  | w :: ws, q =>
    match applyWrites ws q with
    | some v => some v
    | none => if q = w.1 then some w.2 else none

/-- The chronological write list produced when the worker pool performs
the per-file writes `entries` in the order given by `order` (a list of
indices into `entries`).  In `ExtractAllFilesWithProgress` each
`ExtractFiles(i)` writes a pair fully determined by row `i` of the file
table — the path `extractPaths[fsTable[i].inode]` and that inode's
decrypted bytes — so a thread interleaving is exactly a permutation of
the index order. -/
def writesOf (entries : List (String × List Nat)) (order : List Nat) :
    List (String × List Nat) :=
  order.filterMap (fun i => entries.get? i)

/-- The output tree left by executing the writes of `entries` in the
order `order`. -/
def runOrder (entries : List (String × List Nat)) (order : List Nat) :
    String → Option (List Nat) :=
  applyWrites (writesOf entries order)

/-- No two writes carry different content for the same path.  This holds
for `ExtractFiles` exactly when `extractPaths` never sends two distinct
inodes to the same host path (same-inode duplicates always carry the same
bytes). -/
def pathCompatible (entries : List (String × List Nat)) : Prop :=
  ∀ w1 ∈ entries, ∀ w2 ∈ entries, w1.1 = w2.1 → w1.2 = w2.2

/-- Characterisation of `applyWrites`: at each path the result is either
`none` with no write to that path, or `some v` backed by a write of `v`
to that path. -/
theorem applyWrites_spec (ws : List (String × List Nat)) (q : String) :
    (applyWrites ws q = none ∧ ∀ w ∈ ws, w.1 ≠ q) ∨
    (∃ v w, applyWrites ws q = some v ∧ w ∈ ws ∧ w.1 = q ∧ w.2 = v) := by
  induction ws with
  | nil => left; exact ⟨rfl, by simp⟩
  | cons w ws ih =>
    rcases ih with ⟨hnone, hall⟩ | ⟨v, w', hsome, hmem, hpath, hval⟩
    · by_cases hq : q = w.1
      · right
        refine ⟨w.2, w, ?_, List.mem_cons_self w ws, hq.symm, rfl⟩
        show (match applyWrites ws q with
          | some v => some v
          | none => if q = w.1 then some w.2 else none) = some w.2
        rw [hnone, if_pos hq]
      · left
        constructor
        · show (match applyWrites ws q with
            | some v => some v
            | none => if q = w.1 then some w.2 else none) = none
          rw [hnone, if_neg hq]
        · intro x hx
          rcases List.mem_cons.mp hx with rfl | hx'
          · exact fun hc => hq hc.symm
          · exact hall x hx'
    · right
      refine ⟨v, w', ?_, List.mem_cons_of_mem w hmem, hpath, hval⟩
      show (match applyWrites ws q with
        | some v => some v
        | none => if q = w.1 then some w.2 else none) = some v
      rw [hsome]

/-- Two write lists with the same members (as sets) and path-compatible
content leave the same tree. -/
theorem applyWrites_mem_eq (entries ws1 ws2 : List (String × List Nat))
    (hc : pathCompatible entries)
    (h1 : ∀ w ∈ ws1, w ∈ entries) (h2 : ∀ w ∈ ws2, w ∈ entries)
    (hmem : ∀ w, w ∈ ws1 ↔ w ∈ ws2) :
    applyWrites ws1 = applyWrites ws2 := by
  funext q
  rcases applyWrites_spec ws1 q with ⟨hn1, hall1⟩ | ⟨v1, w1, hs1, hm1, hp1, hv1⟩ <;>
    rcases applyWrites_spec ws2 q with ⟨hn2, hall2⟩ | ⟨v2, w2, hs2, hm2, hp2, hv2⟩
  · rw [hn1, hn2]
  · exact absurd hp2 (hall1 w2 ((hmem w2).mpr hm2))
  · exact absurd hp1 (hall2 w1 ((hmem w1).mp hm1))
  · rw [hs1, hs2, ← hv1, ← hv2,
      hc w1 (h1 w1 hm1) w2 (h2 w2 hm2) (hp1.trans hp2.symm)]

/-- C9 (amended): as long as no two distinct file-table rows write
different bytes to the same path (which holds whenever `extractPaths` is
injective on inodes), the tree produced by the worker pool is the same
for every permutation of the extraction order — so two runs of the
extraction yield byte-identical trees. -/
theorem extract_order_independent (entries : List (String × List Nat))
    (order1 order2 : List Nat) (hperm : order1.Perm order2)
    (hc : pathCompatible entries) :
    runOrder entries order1 = runOrder entries order2 := by
  apply applyWrites_mem_eq entries _ _ hc
  · intro w hw
    rcases List.mem_filterMap.mp hw with ⟨i, _, hg⟩
    exact List.get?_mem hg
  · intro w hw
    rcases List.mem_filterMap.mp hw with ⟨i, _, hg⟩
    exact List.get?_mem hg
  · intro w
    constructor
    · intro hw
      rcases List.mem_filterMap.mp hw with ⟨i, hi, hg⟩
      exact List.mem_filterMap.mpr ⟨i, hperm.mem_iff.mp hi, hg⟩
    · intro hw
      rcases List.mem_filterMap.mp hw with ⟨i, hi, hg⟩
      exact List.mem_filterMap.mpr ⟨i, hperm.mem_iff.mpr hi, hg⟩

/-- Two writes of different bytes to one path. -/
def collidingWrites : List (String × List Nat) :=
  [("x", [1]), ("x", [2])]

/-- Two writes to distinct paths. -/
def demoWrites : List (String × List Nat) :=
  [("a", [1]), ("b", [2])]

/-- Counterexample to C9 as stated: when two file-table rows map to the
same path with different bytes (two distinct inodes assigned the same
`extractPaths` target — nothing in the walker prevents it), the final
tree depends on the worker order, so two runs need not be
byte-identical. -/
theorem extract_order_dependent_counterexample :
    runOrder collidingWrites [0, 1] ≠ runOrder collidingWrites [1, 0] := by
  intro h
  have e1 : runOrder collidingWrites [0, 1] "x" = some [2] := rfl
  have e2 : runOrder collidingWrites [1, 0] "x" = some [1] := rfl
  rw [h, e2] at e1
  simp at e1

/-- Witness for `extract_order_independent` on a collision-free write
set. -/
theorem extract_order_independent_witness :
    (([0, 1] : List Nat).Perm [1, 0] ∧ pathCompatible demoWrites) ∧
    runOrder demoWrites [0, 1] = runOrder demoWrites [1, 0] :=
  ⟨⟨by decide, by unfold pathCompatible; decide⟩,
    extract_order_independent demoWrites [0, 1] [1, 0] (by decide)
      (by unfold pathCompatible; decide)⟩

end ShadPKG
